import Mathlib

/-!
Verification development for the meal-database deduplication engine
(`deduplicate_db.py`).  The Python source is shallowly embedded: each
Python helper becomes a total Lean function over `String` / `List Char`,
floating-point scores become exact rationals, and the `difflib`
`SequenceMatcher` similarity (a standard-library dependency of the
source) is modelled by its documented greedy longest-match algorithm
with an empty junk set (the autojunk heuristic only affects sequences of
length at least 200).  Left-to-right regex scans are written with an
explicit fuel argument equal to the scanned length; every scan step
consumes at least one character, so the fuel never runs out and the
fuelled function computes the same result as the Python scan.
-/

namespace Dedup

/-- Whitespace characters recognised by Python's `\s` and `str.strip()`
(for the ASCII/Latin-1 inputs handled here). -/
def isPySpace (c : Char) : Bool :=
  c = ' ' || c = '\t' || c = '\n' || c = '\r' || c = '\x0b' || c = '\x0c'

/-- Separator class `[,\s]` used around allergen codes. -/
def isSepWs (c : Char) : Bool := c = ',' || isPySpace c

/-- Lowercase ASCII letter, the `[a-z]` class of the code regexes. -/
def isLowerAZ (c : Char) : Bool := 'a' ≤ c && c ≤ 'z'

/-- ASCII digit, the `\d` class of the code regexes. -/
def isDigit09 (c : Char) : Bool := '0' ≤ c && c ≤ '9'

/-- Python `str.lower()` restricted to the alphabet that occurs in the
menu data: ASCII letters plus the German capitals Ä/Ö/Ü. -/
def toLowerPy (c : Char) : Char :=
  if 'A' ≤ c && c ≤ 'Z' then Char.ofNat (c.toNat + 32)
  else if c = 'Ä' then 'ä'
  else if c = 'Ö' then 'ö'
  else if c = 'Ü' then 'ü'
  else c

def lowerL (l : List Char) : List Char := l.map toLowerPy

/-- Lookahead `(?=[,\s]|$)`: the rest of the input starts with a
comma/whitespace or is empty. -/
def lookSep : List Char → Bool
  | [] => true
  | c :: _ => isSepWs c

/-- Attempt to match the code body `[a-z]\d?(?=[,\s]|$)` at the head of
the list (the leading `(?:^|[,\s])` has already been matched by the
caller).  Returns the matched code and the unconsumed rest.  The
optional digit is greedy; backtracking to the digit-less branch can
never succeed because a digit is not in `[,\s]`. -/
def tryCode : List Char → Option (List Char × List Char)
  | [] => none
  | c :: rest =>
    if isLowerAZ c then
      match rest with
      | d :: rest2 =>
        if isDigit09 d then
          if lookSep rest2 then some ([c, d], rest2) else none
        else
          if lookSep rest then some ([c], rest) else none
      | [] => some ([c], [])
    else none

/-- Scan of `re.sub(r'(?:^|[,\s])([a-z]\d?)(?=[,\s]|$)', ' ', s)` after
the start-of-string position (each match must begin with a `[,\s]`
separator).  Fuelled: every step consumes at least one character. -/
def subLetterCodesF : Nat → List Char → List Char
  | _, [] => []
  | 0, l => l
  | f + 1, c :: rest =>
    if isSepWs c then
      match tryCode rest with
      | some (_, rest2) => ' ' :: subLetterCodesF f rest2
      | none => c :: subLetterCodesF f rest
    else c :: subLetterCodesF f rest

/-- Full substitution for the letter-code pattern, including the
zero-width `^` alternative at position 0. -/
def subLetterCodesStart (l : List Char) : List Char :=
  match tryCode l with
  | some (_, rest2) => ' ' :: subLetterCodesF rest2.length rest2
  | none => subLetterCodesF l.length l

/-- Attempt to match `\d(?=[,\s]|$)` at the head of the list. -/
def tryDigit : List Char → Option (Char × List Char)
  | [] => none
  | c :: rest => if isDigit09 c && lookSep rest then some (c, rest) else none

/-- Scan of `re.sub(r'(?:^|[,\s])(\d)(?=[,\s]|$)', ' ', s)` after the
start position. -/
def subDigitCodesF : Nat → List Char → List Char
  | _, [] => []
  | 0, l => l
  | f + 1, c :: rest =>
    if isSepWs c then
      match tryDigit rest with
      | some (_, rest2) => ' ' :: subDigitCodesF f rest2
      | none => c :: subDigitCodesF f rest
    else c :: subDigitCodesF f rest

/-- Digit-code substitution including the `^` alternative. -/
def subDigitCodesStart (l : List Char) : List Char :=
  match tryDigit l with
  | some (_, rest2) => ' ' :: subDigitCodesF rest2.length rest2
  | none => subDigitCodesF l.length l

/-- Collector mirroring `re.findall` for the letter-code pattern
(returns the captured group of each non-overlapping match). -/
def findLetterCodesF : Nat → List Char → List (List Char)
  | _, [] => []
  | 0, _ => []
  | f + 1, c :: rest =>
    if isSepWs c then
      match tryCode rest with
      | some (cs, rest2) => cs :: findLetterCodesF f rest2
      | none => findLetterCodesF f rest
    else findLetterCodesF f rest

/-- Letter-code collector including the `^` alternative. -/
def findLetterCodesStart (l : List Char) : List (List Char) :=
  match tryCode l with
  | some (cs, rest2) => cs :: findLetterCodesF rest2.length rest2
  | none => findLetterCodesF l.length l

/-- Collector mirroring `re.findall` for the digit-code pattern. -/
def findDigitCodesF : Nat → List Char → List (List Char)
  | _, [] => []
  | 0, _ => []
  | f + 1, c :: rest =>
    if isSepWs c then
      match tryDigit rest with
      | some (d, rest2) => [d] :: findDigitCodesF f rest2
      | none => findDigitCodesF f rest
    else findDigitCodesF f rest

/-- Digit-code collector including the `^` alternative. -/
def findDigitCodesStart (l : List Char) : List (List Char) :=
  match tryDigit l with
  | some (d, rest2) => [d] :: findDigitCodesF rest2.length rest2
  | none => findDigitCodesF l.length l

/-- Suffix of the list after the first `)` character, if any. -/
def afterRParen : List Char → Option (List Char)
  | [] => none
  | c :: rest => if c = ')' then some rest else afterRParen rest

/-- Scan of `re.sub(r'\([^)]*\)', ' ', s)`: a parenthesised substring is
replaced by a space; an unclosed `(` matches nothing. -/
def subParensF : Nat → List Char → List Char
  | _, [] => []
  | 0, l => l
  | f + 1, c :: rest =>
    if c = '(' then
      match afterRParen rest with
      | some rest2 => ' ' :: subParensF f rest2
      | none => c :: subParensF f rest
    else c :: subParensF f rest

def subParens (l : List Char) : List Char := subParensF l.length l

/-- Scan of `re.sub(r'\s*X\s*', ' ', s)` for a literal one-character
separator `X` (comma, ampersand or dash in the source): a run of
whitespace around an occurrence of `X` collapses, together with `X`, to
a single space. -/
def subAroundF (t : Char) : Nat → List Char → List Char
  | _, [] => []
  | 0, l => l
  | f + 1, l =>
    match l.dropWhile isPySpace with
    | [] => l.takeWhile isPySpace
    | x :: rest =>
      if x = t then ' ' :: subAroundF t f (rest.dropWhile isPySpace)
      else l.takeWhile isPySpace ++ x :: subAroundF t f rest

def subAround (t : Char) (l : List Char) : List Char := subAroundF t l.length l

/-- Scan of `re.sub(r'\s+', ' ', s)`: whitespace runs collapse to one
space. -/
def collapseWsF : Nat → List Char → List Char
  | _, [] => []
  | 0, l => l
  | f + 1, c :: rest =>
    if isPySpace c then ' ' :: collapseWsF f (rest.dropWhile isPySpace)
    else c :: collapseWsF f rest

def collapseWs (l : List Char) : List Char := collapseWsF l.length l

/-- Python `str.strip()`: remove leading and trailing whitespace. -/
def stripWs (l : List Char) : List Char :=
  ((l.dropWhile isPySpace).reverse.dropWhile isPySpace).reverse

/-- Character class `[\s,\-]` of the final clean-up pattern. -/
def isStripSep (c : Char) : Bool := isPySpace c || c = ',' || c = '-'

/-- Scan of `re.sub(r'^[\s,\-]+|[\s,\-]+$', '', s)`: remove a leading
and a trailing run of whitespace/comma/dash. -/
def stripSepEnds (l : List Char) : List Char :=
  ((l.dropWhile isStripSep).reverse.dropWhile isStripSep).reverse

/-- Python `str.split()` with no arguments: split on whitespace runs,
dropping empty pieces. -/
def pySplitF : Nat → List Char → List (List Char)
  | _, [] => []
  | 0, _ => []
  | f + 1, c :: rest =>
    if isPySpace c then pySplitF f rest
    else (c :: rest.takeWhile (fun x => !isPySpace x)) ::
      pySplitF f (rest.dropWhile (fun x => !isPySpace x))

def pySplit (l : List Char) : List (List Char) := pySplitF l.length l

/-- Python `' '.join(words)`. -/
def joinSp (ws : List (List Char)) : List Char := List.intercalate [' '] ws

/-- Haystack starts with needle. -/
def startsWithL : List Char → List Char → Bool
  | [], _ => true
  | _ :: _, [] => false
  | n :: ns, h :: hs => n = h && startsWithL ns hs

/-- Python substring containment `needle in hay`. -/
def containsSub (needle : List Char) : List Char → Bool
  | [] => startsWithL needle []
  | c :: rest => startsWithL needle (c :: rest) || containsSub needle rest

/-- Python `hay.find(needle)`: index of the first occurrence, `none`
when absent. -/
def findSub (needle : List Char) : List Char → Option Nat
  | [] => if startsWithL needle [] then some 0 else none
  | c :: rest =>
    if startsWithL needle (c :: rest) then some 0
    else (findSub needle rest).map (· + 1)

/-- German-diacritic folding applied to the lower-cased comparison text:
`ä→ae`, `ö→oe`, `ü→ue`, `ß→ss` (sequential `str.replace` calls in the
source; the replacements are character-local, so a character map is
equivalent). -/
def foldUmlauts (l : List Char) : List Char :=
  l.flatMap fun c =>
    if c = 'ä' then ['a', 'e']
    else if c = 'ö' then ['o', 'e']
    else if c = 'ü' then ['u', 'e']
    else if c = 'ß' then ['s', 's'] else [c]

/-- Ascending sort of the deduplicated code list, mirroring
`sorted(set(all_codes))` (Python sorts strings by code points). -/
def sortCodes (cs : List String) : List String :=
  (cs.eraseDups).mergeSort (fun a b => !decide (b < a))

/-- Embedding of `normalize_meal_name`.  Returns
`(comparisonText, allergenCodes, cleanText)` exactly as the source
returns `(name_normalized, allergen_codes, clean_name)`. -/
def normalize_meal_name (name : String) : String × List String × String :=
  if name = "" then ("", [], "")
  else
    let l := name.data
    let letterCodes := (findLetterCodesStart l).map fun cs => String.mk cs
    let digitCodes := (findDigitCodesStart l).map fun cs => String.mk cs
    let noCodes0 := subDigitCodesStart (subLetterCodesStart l)
    let noCodes1 := subParens noCodes0
    let noCodes2 := subAround ',' noCodes1
    let noCodes3 := subAround '&' noCodes2
    let noCodes4 := stripWs (collapseWs noCodes3)
    let clean := stripSepEnds (stripWs (collapseWs (subAround '-' noCodes4)))
    let norm := stripWs (collapseWs (foldUmlauts (lowerL clean)))
    (String.mk norm, sortCodes (letterCodes ++ digitCodes), String.mk clean)

/-- Comparison text of a name (first component of the Normalizer). -/
def normOf (name : String) : String := (normalize_meal_name name).1

/-- Clean display text of a name (third component of the Normalizer). -/
def cleanOf (name : String) : String := (normalize_meal_name name).2.2

/-- Side-dish connective words of the non-Wok headline rule. -/
def isConnective (w : List Char) : Bool :=
  let lw := String.mk (lowerL w)
  lw = "mit" || lw = "dazu" || lw = "in" || lw = "an"

/-- Index scan of the source loop `for i, word in enumerate(words):
if word.lower() in [...] and i > 0: return words[:i]` — an occurrence at
index 0 fails the `i > 0` test and the loop continues scanning. -/
def connScan : Nat → List (List Char) → Option Nat
  | _, [] => none
  | i, w :: r =>
    if isConnective w && decide (0 < i) then some i else connScan (i + 1) r

/-- Embedding of `extract_dish_name`. -/
def extract_dish_name (name : String) : String :=
  let clean := (normalize_meal_name name).2.2.data
  let words := pySplit clean
  let wokResult : Option (List Char) :=
    if containsSub ['w', 'o', 'k'] (lowerL clean) then
      match words.findIdx? (fun w => String.mk (lowerL w) = "wok") with
      | some i =>
        if i = 0 && decide (1 < words.length) then some (joinSp (words.take 2))
        else if 0 < i then some (joinSp (words.take (i + 1)))
        else none
      | none => none
    else none
  match wokResult with
  | some r => String.mk r
  | none =>
    if words.length ≤ 3 then String.mk clean
    else
      match connScan 0 words with
      | some i => String.mk (joinSp (words.take i))
      | none => String.mk (joinSp (words.take (min 3 words.length)))

/-- Character of `l` at index `i` (indices used below always lie inside
the window, so the default is irrelevant). -/
def charAt (l : List Char) (i : Nat) : Char := l.getD i ' '

/-- Length of the longest common suffix of `a[alo..i]` and `b[blo..j]`,
the quantity difflib's `j2len` dictionary rows carry: `j2len[j]` at row
`i` equals `csuf a b alo blo i j` whenever `a[i] = b[j]`, and the entry
is absent (treated as `0`) otherwise. -/
def csuf (a b : List Char) (alo blo : Nat) : Nat → Nat → Nat
  | ii + 1, jj + 1 =>
    if charAt a (ii + 1) = charAt b (jj + 1) then
      if alo < ii + 1 ∧ blo < jj + 1 then csuf a b alo blo ii jj + 1 else 1
    else 0
  | i, j => if charAt a i = charAt b j then 1 else 0

/-- Candidate match block ending at cell `(i, j)`: the block of length
`csuf i j` whose last characters are `a[i]` and `b[j]`; a cell with no
match contributes the initial accumulator `(alo, blo, 0)` of the source
loop.  Cells whose characters differ contribute `k = 0` and never win,
which is why difflib can skip them via its `b2j` occurrence lists. -/
def cellBest (a b : List Char) (alo blo i j : Nat) : Nat × Nat × Nat :=
  let k := csuf a b alo blo i j
  if k = 0 then (alo, blo, 0) else (i + 1 - k, j + 1 - k, k)

/-- Leftmost-maximum combiner: the later candidate `y` wins only when
strictly longer, exactly the `if k > bestsize` update of the source
scan, so folding it over the cells in scan order yields the first cell
attaining the maximal length. -/
def betterRL (x y : Nat × Nat × Nat) : Nat × Nat × Nat :=
  if x.2.2 < y.2.2 then y else x

/-- Leftmost maximum of the candidates of row `i`, over the `cnt` cells
starting at column `j` (right recursion keeps kernel evaluation depth
linear in the window size instead of quadratic). -/
def rowScan (a b : List Char) (alo blo i : Nat) : Nat → Nat → Nat × Nat × Nat
  | _, 0 => (alo, blo, 0)
  | j, cnt + 1 => betterRL (cellBest a b alo blo i j) (rowScan a b alo blo i (j + 1) cnt)

/-- Leftmost maximum over the `cnt` rows starting at row `i`. -/
def rowsScan (a b : List Char) (alo blo bhi : Nat) : Nat → Nat → Nat × Nat × Nat
  | _, 0 => (alo, blo, 0)
  | i, cnt + 1 =>
    betterRL (rowScan a b alo blo i blo (bhi - blo))
      (rowsScan a b alo blo bhi (i + 1) cnt)

/-- Dictionary phase of `find_longest_match` on the window
`a[alo:ahi] × b[blo:bhi]`: returns `(besti, bestj, bestsize)`, the first
cell (in the `i`-ascending, `j`-ascending scan order of the source)
attaining the maximal match length, or `(alo, blo, 0)` when the window
has no match. -/
def flmBest (a b : List Char) (alo ahi blo bhi : Nat) : Nat × Nat × Nat :=
  rowsScan a b alo blo bhi alo (ahi - alo)

/-- Left extension loop of `find_longest_match` (with an empty junk set
the junk guards of the source are vacuous). -/
def extendLeft (a b : List Char) (alo blo : Nat) : Nat → Nat → Nat → Nat × Nat × Nat
  | bi + 1, bj + 1, k =>
    if alo < bi + 1 ∧ blo < bj + 1 ∧ charAt a bi = charAt b bj then
      extendLeft a b alo blo bi bj (k + 1)
    else (bi + 1, bj + 1, k)
  | bi, bj, k => (bi, bj, k)

/-- Right extension loop of `find_longest_match`, fuelled by the free
room `ahi - (bi + k)`, which is exactly the number of steps the Python
`while` loop can still take. -/
def extendRightF (a b : List Char) (ahi bhi bi bj : Nat) : Nat → Nat → Nat
  | 0, k => k
  | f + 1, k =>
    if bi + k < ahi ∧ bj + k < bhi ∧ charAt a (bi + k) = charAt b (bj + k) then
      extendRightF a b ahi bhi bi bj f (k + 1)
    else k

def extendRight (a b : List Char) (ahi bhi bi bj k : Nat) : Nat :=
  extendRightF a b ahi bhi bi bj (ahi - (bi + k)) k

/-- Embedding of `difflib.SequenceMatcher.find_longest_match` with an
empty junk set (autojunk only triggers for sequences of length ≥ 200;
the popular-junk extension loop of the source is then a no-op). -/
def find_longest_match (a b : List Char) (alo ahi blo bhi : Nat) :
    Nat × Nat × Nat :=
  let best := flmBest a b alo ahi blo bhi
  let ext := extendLeft a b alo blo best.1 best.2.1 best.2.2
  (ext.1, ext.2.1, extendRight a b ahi bhi ext.1 ext.2.1 ext.2.2)

/-- Total size of the matching blocks produced by the recursive
longest-match splitting of `get_matching_blocks` (only the sum of block
sizes matters for `ratio`).  The fuel bounds the recursion depth; every
recursive call shrinks the combined window size, so any fuel that is at
least `(ahi - alo) + (bhi - blo) + 1` computes the true sum. -/
def mbSum (a b : List Char) : Nat → Nat → Nat → Nat → Nat → Nat
  | 0, _, _, _, _ => 0
  | fuel + 1, alo, ahi, blo, bhi =>
    let r := find_longest_match a b alo ahi blo bhi
    if r.2.2 = 0 then 0
    else
      r.2.2 + mbSum a b fuel alo r.1 blo r.2.1 +
        mbSum a b fuel (r.1 + r.2.2) ahi (r.2.1 + r.2.2) bhi

/-- Total matched length `M` over the whole strings. -/
def totalMatched (a b : List Char) : Nat :=
  mbSum a b (a.length + b.length + 1) 0 a.length 0 b.length

/-- Embedding of `similarity_score` (`SequenceMatcher(None, s1, s2)
.ratio() = 2·M/T`); exact rationals replace Python floats, and two empty
strings yield `1.0` as in `difflib._calculate_ratio`. -/
def similarity_score (s1 s2 : String) : ℚ :=
  let T := s1.length + s2.length
  if T = 0 then 1
  else Rat.divInt (2 * totalMatched s1.data s2.data) T

/-- Protein keyword groups of `are_duplicates`, in source order
(beef, pork, poultry, lamb, fish). -/
def protein_keywords : List (List String) :=
  [["rind", "rindfleisch", "beef"],
   ["schwein", "schweinefleisch", "pork"],
   ["hähnchen", "huhn", "hühnchen", "geflügel", "pute", "chicken", "poultry"],
   ["lamm", "lammfleisch", "lamb"],
   ["fisch", "fish", "lachs", "seelachs", "thunfisch"]]

/-- Embedding of the nested `get_protein_type`: index of the first
keyword group with a substring match in the lower-cased text, `none`
when no group matches. -/
def get_protein_type (text : String) : Option Nat :=
  let tl := lowerL text.data
  protein_keywords.findIdx? fun g => g.any fun k => containsSub k.data tl

/-- Separator substrings of `extract_main_components`, in source
order. -/
def mainSeparators : List String :=
  ["dazu", "mit", "und", ",", "an", "in", "auf"]

/-- Embedding of `extract_main_components`: split at the earliest
separator-substring occurrence with position `> 0` (`str.find`
occurrences at position 0 or absent separators are ignored); the
initial split position is the string length. -/
def extract_main_components (name : String) : String × String :=
  let l := name.data
  let ll := lowerL l
  let firstSep := mainSeparators.foldl
    (fun acc sep =>
      match findSub sep.data ll with
      | some pos => if 0 < pos ∧ pos < acc then pos else acc
      | none => acc)
    l.length
  let main := String.mk (stripWs (l.take firstSep))
  let sides :=
    if firstSep < l.length then String.mk (stripWs (l.drop firstSep)) else ""
  (main, sides)

/-- Embedding of `are_duplicates`: the ordered short-circuit rule chain
(protein veto, exact normalized match, near-exact similarity, dish-name
equality, dish-name similarity, overall similarity against the caller
threshold, main-component similarity). -/
def are_duplicates (name1 name2 : String) (threshold : ℚ) : Bool :=
  let norm1 := (normalize_meal_name name1).1
  let norm2 := (normalize_meal_name name2).1
  let protein1 := get_protein_type norm1
  let protein2 := get_protein_type norm2
  if protein1 ≠ none ∧ protein2 ≠ none ∧ protein1 ≠ protein2 then false
  else if norm1 = norm2 then true
  else if Rat.divInt 95 100 ≤ similarity_score norm1 norm2 then true
  else
    let dish1 := String.mk (foldUmlauts (lowerL (extract_dish_name name1).data))
    let dish2 := String.mk (foldUmlauts (lowerL (extract_dish_name name2).data))
    if dish1 = dish2 ∧ 5 < dish1.length then true
    else if Rat.divInt 90 100 ≤ similarity_score dish1 dish2 ∧ 5 < dish1.length
      then true
    else if threshold ≤ similarity_score norm1 norm2 then true
    else
      let main1 := (extract_main_components norm1).1
      let main2 := (extract_main_components norm2).1
      if Rat.divInt 92 100 ≤ similarity_score main1 main2 then true
      else false

/-- Default merge threshold `0.88` of the source. -/
def defaultThreshold : ℚ := Rat.divInt 88 100

/-- Ingredient nouns rewarded by the canonical-name scoring
(case-sensitive, as in the source). -/
def ingredientWords : List String := ["Gemüse", "Reis", "Kartoffeln", "Sauce"]

/-- Completeness score of one clean name in `choose_canonical_name`,
multiplied by 20 so that it is an exact integer: the Python float score
is `canonScore20 / 20` (the only fractional contribution is
`-0.05·|len − 70|`, idealised to `-(1/20)·|len − 70|`). -/
def canonScore20 (clean : String) : ℤ :=
  let l := clean.data
  let wordBonus : ℤ := 40 * (pySplit l).length
  let dazuBonus : ℤ :=
    if containsSub ['d', 'a', 'z', 'u'] (lowerL l) then 200 else 0
  let mitBonus : ℤ :=
    if containsSub ['m', 'i', 't'] (lowerL l) then 100 else 0
  let lengthPenalty : ℤ := ((l.length : ℤ) - 70).natAbs
  let spaceBonus : ℤ := if containsSub [' ', ' '] l then 0 else 40
  let dashBonus : ℤ := if l.count '-' ≤ 2 then 20 else 0
  let ingredientBonus : ℤ :=
    if ingredientWords.any (fun w => containsSub w.data l) then 60 else 0
  wordBonus + dazuBonus + mitBonus - lengthPenalty + spaceBonus + dashBonus +
    ingredientBonus

/-- Exact value of the Python float score of one clean name. -/
def canonScore (clean : String) : ℚ := Rat.divInt (canonScore20 clean) 20

/-- Strictly-greater test on sort keys `(score, -length)`: the stable
descending sort of the source followed by `scored[0]` selects the first
list element whose key no later element strictly exceeds, i.e. a left
fold that replaces the current best only on a strictly greater key. -/
def keyGt (x y : ℤ × ℤ) : Bool :=
  decide (y.1 < x.1) || (decide (x.1 = y.1) && decide (y.2 < x.2))

/-- Embedding of `choose_canonical_name`: score every member's clean
text, sort by `(score, -length)` descending (stable), return the clean
text of the top entry.  An empty group raises `IndexError` in Python;
the model returns `""` there (no caller passes an empty group). -/
def choose_canonical_name (names : List String) : String :=
  let scored := names.map fun n =>
    let clean := (normalize_meal_name n).2.2
    (canonScore20 clean, (-(clean.length : ℤ), clean))
  match scored with
  | [] => ""
  | x :: xs =>
    (xs.foldl (fun best y =>
      if keyGt (y.1, y.2.1) (best.1, best.2.1) then y else best) x).2.2

/-- Grouping loop of `find_duplicate_groups`: the earliest unprocessed
name seeds a group and claims every later unprocessed name that the
Duplicate Predicate accepts against the seed (the source marks claimed
names in a `processed` set; on a duplicate-free input list this is the
same as filtering the remainder).  Fuelled by the list length, which the
remainder strictly undercuts at every step. -/
def findGroupsF : Nat → List String → List (List String)
  | _, [] => []
  | 0, _ => []
  | f + 1, seed :: rest =>
    (seed :: rest.filter fun m => are_duplicates seed m defaultThreshold) ::
      findGroupsF f (rest.filter fun m => !are_duplicates seed m defaultThreshold)

def findGroups (l : List String) : List (List String) :=
  findGroupsF l.length l

/-- Groups of size `> 1` kept by `find_duplicate_groups`. -/
def duplicate_groups (l : List String) : List (List String) :=
  (findGroups l).filter fun g => decide (1 < g.length)

/-- Canonical mapping built by `find_duplicate_groups`: every member of
every duplicate group maps to the group's canonical name. -/
def canonical_mapping (l : List String) : List (String × String) :=
  (duplicate_groups l).flatMap fun g =>
    g.map fun n => (n, choose_canonical_name g)

/-- Embedding of `find_duplicate_groups`, applied to the distinct name
list that the source reads with `SELECT DISTINCT name FROM meal ORDER BY
name`: returns `(canonical_mapping, duplicate_groups)`. -/
def find_duplicate_groups (l : List String) :
    List (String × String) × List (List String) :=
  (canonical_mapping l, duplicate_groups l)

set_option maxRecDepth 40000

/-- C8: Wok headline extraction — when the standalone word "Wok" is
first and a word follows, the headline is the first two words; when
"Wok" appears later, the headline is all words up to and including it,
after `&` has been normalized to a space. -/
theorem c8_wok_headlines :
    extract_dish_name "Wok Jakarta Gemüsemischung mit Reis" = "Wok Jakarta" ∧
    extract_dish_name "Power & Sweet Wok mit Geflügel" = "Power Sweet Wok" := by
  decide

/-- C5: the protein veto is absolute — whenever both comparison texts
carry a (non-`none`) protein tag and the tags differ, `are_duplicates`
returns `false` for every threshold, before any similarity is
consulted. -/
theorem c5_protein_veto_absolute (name1 name2 : String) (t : ℚ) (p1 p2 : Nat)
    (h1 : get_protein_type (normOf name1) = some p1)
    (h2 : get_protein_type (normOf name2) = some p2)
    (hne : p1 ≠ p2) :
    are_duplicates name1 name2 t = false := by
  simp only [normOf] at h1 h2
  unfold are_duplicates
  rw [if_pos]
  refine ⟨by simp [h1], by simp [h2], by simp [h1, h2, hne]⟩

/-- Witness for C5 at a concrete poultry/beef pair. -/
theorem c5_protein_veto_absolute_witness :
    are_duplicates "Putengulasch mit Reis" "Rindergulasch mit Reis"
      defaultThreshold = false :=
  c5_protein_veto_absolute _ _ _ 2 0 (by decide) (by decide) (by decide)

/-- C2 fails on the code: the two code-only names `"a"` and `"b"` both
normalize to an empty comparison text, and `are_duplicates` merges them
through its exact-match rule (`"" = ""`), so they land in one group
instead of two singletons. -/
theorem c2_counterexample :
    are_duplicates "a" "b" defaultThreshold = true ∧
    duplicate_groups ["a", "b"] = [["a", "b"]] := by decide

/-- C2 amended: any two names whose comparison texts are both empty are
judged duplicates (for every threshold) by the exact-match rule; the
Normalizer itself is total and never raises. -/
theorem c2_empty_norms_merge (n1 n2 : String) (t : ℚ)
    (h1 : normOf n1 = "") (h2 : normOf n2 = "") :
    are_duplicates n1 n2 t = true := by
  simp only [normOf] at h1 h2
  unfold are_duplicates
  rw [h1, h2]
  rw [if_neg (by decide)]
  rw [if_pos rfl]

/-- Witness for the amended C2 at the concrete pair. -/
theorem c2_empty_norms_merge_witness :
    are_duplicates "a" "b" (Rat.divInt 1 2) = true :=
  c2_empty_norms_merge _ _ _ (by decide) (by decide)

/-- C1 fails on the code: `"Currywurst a, 3"` and `"Currywurst b"` form
a genuine duplicate group, yet the chosen canonical string is the
cleaned text `"Currywurst"`, which is not one of the input strings. -/
theorem c1_counterexample :
    are_duplicates "Currywurst a, 3" "Currywurst b" defaultThreshold = true ∧
    choose_canonical_name ["Currywurst a, 3", "Currywurst b"] ∉
      (["Currywurst a, 3", "Currywurst b"] : List String) := by decide

theorem foldl_choice {α : Type} (step : α → α → α)
    (hstep : ∀ acc y, step acc y = acc ∨ step acc y = y) :
    ∀ (l : List α) (init : α),
      List.foldl step init l = init ∨ List.foldl step init l ∈ l := by
  intro l
  induction l with
  | nil => intro init; exact Or.inl rfl
  | cons y ys ih =>
    intro init
    rw [List.foldl_cons]
    rcases ih (step init y) with h | h
    · rw [h]
      rcases hstep init y with h2 | h2
      · exact Or.inl h2
      · exact Or.inr (by rw [h2]; exact List.mem_cons_self y ys)
    · exact Or.inr (List.mem_cons_of_mem y h)

/-- C1 amended: the Canonical Selector returns the cleaned text of the
top-scored member — a `cleanText`, not necessarily any RawName of the
group. -/
theorem c1_canonical_is_member_clean (names : List String) (h : names ≠ []) :
    ∃ n ∈ names, choose_canonical_name names = cleanOf n := by
  match names with
  | [] => exact absurd rfl h
  | x :: xs =>
    unfold choose_canonical_name
    simp only [List.map_cons]
    have hmem := foldl_choice
      (fun best y => if keyGt (y.1, y.2.1) (best.1, best.2.1) then y else best)
      (fun acc y => by dsimp only; split <;> simp)
      (xs.map fun n =>
        ((canonScore20 (normalize_meal_name n).2.2 : ℤ),
          (-((normalize_meal_name n).2.2.length : ℤ), (normalize_meal_name n).2.2)))
      ((canonScore20 (normalize_meal_name x).2.2 : ℤ),
        (-((normalize_meal_name x).2.2.length : ℤ), (normalize_meal_name x).2.2))
    rcases hmem with h2 | h2
    · exact ⟨x, List.mem_cons_self x xs, by rw [h2]; rfl⟩
    · rw [List.mem_map] at h2
      obtain ⟨n, hn, heq⟩ := h2
      exact ⟨n, List.mem_cons_of_mem x hn, by rw [← heq]; rfl⟩

/-- Witness for the amended C1 on a singleton group. -/
theorem c1_canonical_is_member_clean_witness :
    ∃ n ∈ ["Currywurst a, 3"],
      choose_canonical_name ["Currywurst a, 3"] = cleanOf n :=
  c1_canonical_is_member_clean _ (by decide)

/-- C3 fails on the code: in the batch below the two names form one
group with canonical string `"Schnitzel mit Pommes"`, which is itself a
member, so the emitted mapping contains a self-mapping. -/
theorem c3_counterexample :
    ("Schnitzel mit Pommes", "Schnitzel mit Pommes") ∈
      canonical_mapping ["Schnitzel mit Pommes", "Schnitzel mit Pommes a,c"] := by
  decide

/-- C3 amended: the emitted mapping maps every member of every duplicate
group — including a member that happens to equal its group's canonical
string, which therefore maps to itself (the apply step later skips such
entries). -/
theorem c3_self_mapping_possible (l : List String) (g : List String)
    (n : String) (hg : g ∈ duplicate_groups l) (hn : n ∈ g)
    (hc : choose_canonical_name g = n) : (n, n) ∈ canonical_mapping l := by
  unfold canonical_mapping
  rw [List.mem_flatMap]
  refine ⟨g, hg, ?_⟩
  rw [List.mem_map]
  exact ⟨n, hn, by rw [hc]⟩

/-- Witness for the amended C3 at the concrete batch. -/
theorem c3_self_mapping_possible_witness :
    ("Schnitzel mit Pommes", "Schnitzel mit Pommes") ∈
      canonical_mapping ["Schnitzel mit Pommes", "Schnitzel mit Pommes a,c"] :=
  c3_self_mapping_possible
    ["Schnitzel mit Pommes", "Schnitzel mit Pommes a,c"]
    ["Schnitzel mit Pommes", "Schnitzel mit Pommes a,c"]
    "Schnitzel mit Pommes" (by decide) (by decide) (by decide)

/-- C4 concerns a code bug: the two clean texts below have equal
completeness scores and different lengths; the source's comments say the
longer one must win the tie, but the reverse sort on `(score, -length)`
puts the shorter one first, and it is chosen even when listed second. -/
theorem c4_shorter_clean_wins_tie :
    canonScore20
        (cleanOf
          "brathering mit zwiebelringen paprikastreifen salzgurken roggenbroetchens") =
      canonScore20
        (cleanOf
          "brathering mit zwiebelringen paprikastreifen salzgurken roggenbrotes") ∧
    (cleanOf
        "brathering mit zwiebelringen paprikastreifen salzgurken roggenbrotes").length <
      (cleanOf
        "brathering mit zwiebelringen paprikastreifen salzgurken roggenbroetchens").length ∧
    are_duplicates
      "brathering mit zwiebelringen paprikastreifen salzgurken roggenbroetchens"
      "brathering mit zwiebelringen paprikastreifen salzgurken roggenbrotes"
      defaultThreshold = true ∧
    choose_canonical_name
      ["brathering mit zwiebelringen paprikastreifen salzgurken roggenbroetchens",
       "brathering mit zwiebelringen paprikastreifen salzgurken roggenbrotes"] =
      "brathering mit zwiebelringen paprikastreifen salzgurken roggenbrotes" := by
  decide

/-- C6 amended (inclusive 0.88 boundary): without a protein veto, a pair
whose comparison texts have similarity exactly `0.88` is always merged
at the default threshold — the overall-similarity rule uses `≥`. -/
theorem c6_boundary_inclusive (n1 n2 : String)
    (hveto : ¬(get_protein_type (normOf n1) ≠ none ∧
        get_protein_type (normOf n2) ≠ none ∧
        get_protein_type (normOf n1) ≠ get_protein_type (normOf n2)))
    (hsim : similarity_score (normOf n1) (normOf n2) = Rat.divInt 88 100) :
    are_duplicates n1 n2 defaultThreshold = true := by
  simp only [normOf] at hveto hsim
  unfold are_duplicates defaultThreshold
  rw [if_neg hveto]
  repeat' split
  all_goals try rfl
  all_goals
    first
    | exact absurd (le_of_eq hsim.symm) (by assumption)
    | simp only [ite_self]

/-- Witness for the amended C6: a veto-free pair with similarity exactly
`22/25 = 0.88` is merged. -/
theorem c6_boundary_inclusive_witness :
    are_duplicates "abcdefghijklmnopqrstuvwww" "abcdefghijklmnopqrstuvxyz"
      defaultThreshold = true :=
  c6_boundary_inclusive _ _ (by decide) (by decide)

set_option maxHeartbeats 4000000 in
/-- C6 fails on the code in its negative half: the two names below have
comparison-text similarity exactly `0.87`, yet `are_duplicates` merges
them at the default threshold because their extracted dish headlines
(`"zupfkuchen quark"`, longer than 5 characters) coincide — a rule
checked before the overall-similarity threshold. -/
theorem c6_counterexample :
    similarity_score
        (normOf
          "zupfkuchen quark mit terrasse ratte tasse raste arrest restas tees starre retas tresse bldgjbldgjbld")
        (normOf
          "zupfkuchen quark mit terrasse ratte tasse raste arrest restas tees starre retas tresse ovwxyovwxyovw") =
      Rat.divInt 87 100 ∧
    are_duplicates
      "zupfkuchen quark mit terrasse ratte tasse raste arrest restas tees starre retas tresse bldgjbldgjbld"
      "zupfkuchen quark mit terrasse ratte tasse raste arrest restas tees starre retas tresse ovwxyovwxyovw"
      defaultThreshold = true := by
  decide

theorem connScan_eq_findIdx (ws : List (List Char)) :
    ∀ i, connScan (i + 1) ws = ws.findIdx? isConnective (i + 1) := by
  induction ws with
  | nil => intro i; rfl
  | cons w r ih =>
    intro i
    rw [connScan, List.findIdx?_cons]
    cases hw : isConnective w with
    | true => simp
    | false =>
      simp only [Bool.false_and, Bool.false_eq_true, if_false]
      exact ih (i + 1)

/-- C7 fails on the code: for `"in butter mit salz extra"` the first
connective occurrence is `"in"` at word position 0, so the claim demands
the first-3-words fallback `"in butter mit"`; the loop instead skips the
position-0 occurrence, keeps scanning, finds `"mit"` at position 2 and
returns `"in butter"`. -/
theorem c7_counterexample :
    extract_dish_name "in butter mit salz extra" = "in butter" ∧
    ("in butter" : String) ≠ "in butter mit" := by decide

/-- C7 amended: in the non-Wok case with more than 3 words, the headline
is the words before the first connective occurrence at a position
strictly greater than 0 (an occurrence at position 0 is skipped, not a
trigger for the fallback); only when no connective occurs at any
position `> 0` does the first-3-words fallback apply.  With at most 3
words the whole clean text is the headline. -/
theorem c7_non_wok_headline (name : String)
    (hwok : containsSub ['w', 'o', 'k'] (lowerL (cleanOf name).data) = false) :
    ((pySplit (cleanOf name).data).length ≤ 3 →
      extract_dish_name name = cleanOf name) ∧
    (3 < (pySplit (cleanOf name).data).length →
      extract_dish_name name =
        match ((pySplit (cleanOf name).data).drop 1).findIdx? isConnective with
        | some k =>
          String.mk (joinSp ((pySplit (cleanOf name).data).take (k + 1)))
        | none => String.mk (joinSp ((pySplit (cleanOf name).data).take 3))) := by
  simp only [cleanOf] at hwok ⊢
  unfold extract_dish_name
  simp only [hwok, Bool.false_eq_true, if_false]
  constructor
  · intro hlen
    rw [if_pos hlen]
  · intro hlen
    rw [if_neg (by omega)]
    match hws : pySplit (normalize_meal_name name).2.2.data with
    | [] => rw [hws] at hlen; simp at hlen
    | w :: r =>
      rw [hws] at hlen
      have h0 : connScan 0 (w :: r) = (r.findIdx? isConnective).map (· + 1) := by
        rw [connScan]
        rw [if_neg (by simp)]
        rw [connScan_eq_findIdx r 0]
        exact List.findIdx?_start_succ
      rw [h0]
      simp only [List.drop_succ_cons, List.drop_zero]
      rcases r.findIdx? isConnective with _ | k
      · have hmin : (3 : Nat) ⊓ (r.length + 1) = 3 := by
          have : 3 ≤ r.length + 1 := by
            simp only [List.length_cons] at hlen
            omega
          omega
        simp [hmin]
      · simp

/-- Witness for the amended C7 at the counterexample input. -/
theorem c7_non_wok_headline_witness :
    extract_dish_name "in butter mit salz extra" = "in butter" := by
  have h := (c7_non_wok_headline "in butter mit salz extra" (by decide)).2
    (by decide)
  rw [h]
  rfl

theorem csuf_le_left (a b : List Char) (alo blo : Nat) :
    ∀ i j, alo ≤ i → csuf a b alo blo i j ≤ i + 1 - alo := by
  intro i
  induction i with
  | zero =>
    intro j _
    cases j with
    | zero => simp only [csuf]; split <;> omega
    | succ jj => simp only [csuf]; split <;> omega
  | succ ii ih =>
    intro j hle
    cases j with
    | zero => simp only [csuf]; split <;> omega
    | succ jj =>
      simp only [csuf]
      split
      · split
        · rename_i hg
          have := ih jj (by omega)
          omega
        · omega
      · omega

theorem csuf_le_right (a b : List Char) (alo blo : Nat) :
    ∀ i j, blo ≤ j → csuf a b alo blo i j ≤ j + 1 - blo := by
  intro i
  induction i with
  | zero =>
    intro j _
    cases j with
    | zero => simp only [csuf]; split <;> omega
    | succ jj => simp only [csuf]; split <;> omega
  | succ ii ih =>
    intro j hle
    cases j with
    | zero => simp only [csuf]; split <;> omega
    | succ jj =>
      simp only [csuf]
      split
      · split
        · rename_i hg
          have := ih jj (by omega)
          omega
        · omega
      · omega

/-- Window-containment invariant for a best triple `(i, j, k)`. -/
def okBest (alo ahi blo bhi : Nat) (t : Nat × Nat × Nat) : Prop :=
  alo ≤ t.1 ∧ t.1 + t.2.2 ≤ ahi ∧ blo ≤ t.2.1 ∧ t.2.1 + t.2.2 ≤ bhi

theorem betterRL_cases (x y : Nat × Nat × Nat) :
    betterRL x y = x ∨ betterRL x y = y := by
  unfold betterRL
  split
  · exact Or.inr rfl
  · exact Or.inl rfl

theorem cellBest_ok (a b : List Char) (alo ahi blo bhi i j : Nat)
    (hi1 : alo ≤ i) (hi2 : i < ahi) (hj1 : blo ≤ j) (hj2 : j < bhi) :
    okBest alo ahi blo bhi (cellBest a b alo blo i j) := by
  have h1 := csuf_le_left a b alo blo i j hi1
  have h2 := csuf_le_right a b alo blo i j hj1
  simp only [cellBest, okBest]
  split <;> refine ⟨?_, ?_, ?_, ?_⟩ <;> simp <;> omega

theorem rowScan_ok (a b : List Char) (alo ahi blo bhi i : Nat)
    (hab : alo ≤ ahi) (hbb : blo ≤ bhi) (hi1 : alo ≤ i) (hi2 : i < ahi) :
    ∀ cnt j, j + cnt ≤ bhi → blo ≤ j →
      okBest alo ahi blo bhi (rowScan a b alo blo i j cnt) := by
  intro cnt
  induction cnt with
  | zero =>
    intro j _ _
    exact ⟨le_refl _, by simpa using hab, le_refl _, by simpa using hbb⟩
  | succ c ih =>
    intro j hj hbloj
    rw [rowScan]
    rcases betterRL_cases (cellBest a b alo blo i j)
      (rowScan a b alo blo i (j + 1) c) with h | h
    · rw [h]
      exact cellBest_ok a b alo ahi blo bhi i j hi1 hi2 hbloj (by omega)
    · rw [h]
      exact ih (j + 1) (by omega) (by omega)

theorem rowsScan_ok (a b : List Char) (alo ahi blo bhi : Nat)
    (hab : alo ≤ ahi) (hbb : blo ≤ bhi) :
    ∀ cnt i, alo ≤ i → i + cnt ≤ ahi →
      okBest alo ahi blo bhi (rowsScan a b alo blo bhi i cnt) := by
  intro cnt
  induction cnt with
  | zero =>
    intro i _ _
    exact ⟨le_refl _, by simpa using hab, le_refl _, by simpa using hbb⟩
  | succ c ih =>
    intro i hi1 hi2
    rw [rowsScan]
    rcases betterRL_cases (rowScan a b alo blo i blo (bhi - blo))
      (rowsScan a b alo blo bhi (i + 1) c) with h | h
    · rw [h]
      exact rowScan_ok a b alo ahi blo bhi i hab hbb hi1 (by omega) (bhi - blo)
        blo (by omega) (le_refl _)
    · rw [h]
      exact ih (i + 1) (by omega) (by omega)

theorem flmBest_ok (a b : List Char) (alo ahi blo bhi : Nat)
    (hab : alo ≤ ahi) (hbb : blo ≤ bhi) :
    okBest alo ahi blo bhi (flmBest a b alo ahi blo bhi) := by
  unfold flmBest
  exact rowsScan_ok a b alo ahi blo bhi hab hbb (ahi - alo) alo (le_refl _)
    (by omega)

theorem extendLeft_ok (a b : List Char) (alo ahi blo bhi : Nat) :
    ∀ bi bj k, alo ≤ bi → bi + k ≤ ahi → blo ≤ bj → bj + k ≤ bhi →
      okBest alo ahi blo bhi (extendLeft a b alo blo bi bj k) := by
  intro bi
  induction bi with
  | zero =>
    intro bj k h1 h2 h3 h4
    cases bj with
    | zero => exact ⟨h1, h2, h3, h4⟩
    | succ jj => exact ⟨h1, h2, h3, h4⟩
  | succ ii ih =>
    intro bj k h1 h2 h3 h4
    cases bj with
    | zero => exact ⟨h1, h2, h3, h4⟩
    | succ jj =>
      rw [extendLeft]
      split
      · rename_i hg
        exact ih jj (k + 1) (by omega) (by omega) (by omega) (by omega)
      · exact ⟨h1, h2, h3, h4⟩

theorem extendRightF_le (a b : List Char) (ahi bhi bi bj : Nat) :
    ∀ f k, bi + k ≤ ahi → bj + k ≤ bhi →
      bi + extendRightF a b ahi bhi bi bj f k ≤ ahi ∧
      bj + extendRightF a b ahi bhi bi bj f k ≤ bhi := by
  intro f
  induction f with
  | zero => intro k h1 h2; exact ⟨h1, h2⟩
  | succ ff ih =>
    intro k h1 h2
    rw [extendRightF]
    split
    · rename_i hg
      exact ih (k + 1) (by omega) (by omega)
    · exact ⟨h1, h2⟩

theorem flm_ok (a b : List Char) (alo ahi blo bhi : Nat)
    (hab : alo ≤ ahi) (hbb : blo ≤ bhi) :
    okBest alo ahi blo bhi (find_longest_match a b alo ahi blo bhi) := by
  obtain ⟨hb1, hb2, hb3, hb4⟩ := flmBest_ok a b alo ahi blo bhi hab hbb
  obtain ⟨he1, he2, he3, he4⟩ := extendLeft_ok a b alo ahi blo bhi
    (flmBest a b alo ahi blo bhi).1 (flmBest a b alo ahi blo bhi).2.1
    (flmBest a b alo ahi blo bhi).2.2 hb1 hb2 hb3 hb4
  have h3 := extendRightF_le a b ahi bhi
    (extendLeft a b alo blo (flmBest a b alo ahi blo bhi).1 (flmBest a b alo ahi blo bhi).2.1 (flmBest a b alo ahi blo bhi).2.2).1
    (extendLeft a b alo blo (flmBest a b alo ahi blo bhi).1 (flmBest a b alo ahi blo bhi).2.1 (flmBest a b alo ahi blo bhi).2.2).2.1
    (ahi - ((extendLeft a b alo blo (flmBest a b alo ahi blo bhi).1 (flmBest a b alo ahi blo bhi).2.1 (flmBest a b alo ahi blo bhi).2.2).1 + (extendLeft a b alo blo (flmBest a b alo ahi blo bhi).1 (flmBest a b alo ahi blo bhi).2.1 (flmBest a b alo ahi blo bhi).2.2).2.2))
    (extendLeft a b alo blo (flmBest a b alo ahi blo bhi).1 (flmBest a b alo ahi blo bhi).2.1 (flmBest a b alo ahi blo bhi).2.2).2.2 he2 he4
  exact ⟨he1, h3.1, he3, h3.2⟩

theorem mbSum_le (a b : List Char) :
    ∀ fuel alo ahi blo bhi, alo ≤ ahi → blo ≤ bhi →
      mbSum a b fuel alo ahi blo bhi ≤ min (ahi - alo) (bhi - blo) := by
  intro fuel
  induction fuel with
  | zero => intro alo ahi blo bhi _ _; simp [mbSum]
  | succ f ih =>
    intro alo ahi blo bhi hab hbb
    rw [mbSum]
    have hok := flm_ok a b alo ahi blo bhi hab hbb
    obtain ⟨h1, h2, h3, h4⟩ := hok
    split
    · omega
    · rename_i hk
      have hL := ih alo (find_longest_match a b alo ahi blo bhi).1 blo
        (find_longest_match a b alo ahi blo bhi).2.1 h1 h3
      have hR := ih ((find_longest_match a b alo ahi blo bhi).1 +
          (find_longest_match a b alo ahi blo bhi).2.2) ahi
        ((find_longest_match a b alo ahi blo bhi).2.1 +
          (find_longest_match a b alo ahi blo bhi).2.2) bhi (by omega) (by omega)
      omega

theorem totalMatched_le (a b : List Char) :
    totalMatched a b ≤ min a.length b.length := by
  unfold totalMatched
  have := mbSum_le a b (a.length + b.length + 1) 0 a.length 0 b.length
    (by omega) (by omega)
  simpa using this

theorem csuf_self_diag (a : List Char) : ∀ i, csuf a a 0 0 i i = i + 1 := by
  intro i
  induction i with
  | zero => simp [csuf]
  | succ ii ih => simp [csuf, ih]

theorem cellBest_k_le_left (a b : List Char) (i j : Nat) :
    (cellBest a b 0 0 i j).2.2 ≤ i + 1 := by
  have hc := csuf_le_left a b 0 0 i j (Nat.zero_le i)
  simp only [cellBest]
  split
  · simp
  · simp
    omega

theorem cellBest_k_le_right (a b : List Char) (i j : Nat) :
    (cellBest a b 0 0 i j).2.2 ≤ j + 1 := by
  have hc := csuf_le_right a b 0 0 i j (Nat.zero_le j)
  simp only [cellBest]
  split
  · simp
  · simp
    omega

theorem rowScan_k_le (a b : List Char) (i : Nat) :
    ∀ cnt j, (rowScan a b 0 0 i j cnt).2.2 ≤ i + 1 := by
  intro cnt
  induction cnt with
  | zero => intro j; simp [rowScan]
  | succ c ih =>
    intro j
    rw [rowScan]
    rcases betterRL_cases (cellBest a b 0 0 i j)
      (rowScan a b 0 0 i (j + 1) c) with h | h <;> rw [h]
    · exact cellBest_k_le_left a b i j
    · exact ih (j + 1)

theorem rowScan_diag (a : List Char) (i : Nat) :
    ∀ cnt j, j ≤ i → i < j + cnt → rowScan a a 0 0 i j cnt = (0, 0, i + 1) := by
  intro cnt
  induction cnt with
  | zero => intro j h1 h2; omega
  | succ c ih =>
    intro j h1 h2
    rw [rowScan]
    rcases eq_or_lt_of_le h1 with he | hlt
    · subst he
      have hcell : cellBest a a 0 0 j j = (0, 0, j + 1) := by
        simp only [cellBest, csuf_self_diag]
        rw [if_neg (by omega)]
        simp
      rw [hcell]
      have hk := rowScan_k_le a a j c (j + 1)
      unfold betterRL
      rw [if_neg (by dsimp only; omega)]
    · have hrest := ih (j + 1) (by omega) (by omega)
      rw [hrest]
      have hcell := cellBest_k_le_right a a i j
      unfold betterRL
      rw [if_pos (by dsimp only; omega)]

theorem rowsScan_self (a : List Char) (n : Nat) :
    ∀ cnt i, i + cnt = n → 0 < cnt → rowsScan a a 0 0 n i cnt = (0, 0, n) := by
  intro cnt
  induction cnt with
  | zero => intro i h1 h2; omega
  | succ c ih =>
    intro i h1 _
    rw [rowsScan]
    have hrow : rowScan a a 0 0 i 0 (n - 0) = (0, 0, i + 1) :=
      rowScan_diag a i (n - 0) 0 (Nat.zero_le i) (by omega)
    rw [hrow]
    rcases Nat.eq_zero_or_pos c with hc | hc
    · subst hc
      have hbase : rowsScan a a 0 0 n (i + 1) 0 = (0, 0, 0) := rfl
      rw [hbase]
      unfold betterRL
      rw [if_neg (by dsimp only; omega)]
      have hi : i + 1 = n := by omega
      rw [hi]
    · have hrest := ih (i + 1) (by omega) hc
      rw [hrest]
      unfold betterRL
      rw [if_pos (by dsimp only; omega)]

theorem flm_self (a : List Char) (n : Nat) (hn : 0 < n) :
    find_longest_match a a 0 n 0 n = (0, 0, n) := by
  unfold find_longest_match
  have hbest : flmBest a a 0 n 0 n = (0, 0, n) := by
    unfold flmBest
    exact rowsScan_self a n (n - 0) 0 (by omega) (by omega)
  rw [hbest]
  dsimp only
  have hextL : extendLeft a a 0 0 0 0 n = (0, 0, n) := rfl
  rw [hextL]
  dsimp only
  unfold extendRight
  have hfuel : n - (0 + n) = 0 := by omega
  rw [hfuel]
  rfl

theorem extendLeft_stuck (a b : List Char) (alo blo : Nat) :
    ∀ bi bj k, ¬alo < bi → extendLeft a b alo blo bi bj k = (bi, bj, k) := by
  intro bi bj k h
  match bi, bj with
  | 0, 0 => rfl
  | 0, jj + 1 => rfl
  | ii + 1, 0 => rfl
  | ii + 1, jj + 1 =>
    rw [extendLeft]
    rw [if_neg fun hc => h hc.1]

theorem mbSum_degenerate (a b : List Char) :
    ∀ fuel alo blo, mbSum a b fuel alo alo blo blo = 0 := by
  intro fuel alo blo
  cases fuel with
  | zero => rfl
  | succ f =>
    rw [mbSum]
    have hflm : find_longest_match a b alo alo blo blo = (alo, blo, 0) := by
      unfold find_longest_match
      have hbest : flmBest a b alo alo blo blo = (alo, blo, 0) := by
        unfold flmBest
        have h0 : alo - alo = 0 := by omega
        rw [h0]
        rfl
      rw [hbest]
      dsimp only
      rw [extendLeft_stuck a b alo blo alo blo 0 (by omega)]
      dsimp only
      unfold extendRight
      have h2 : alo - (alo + 0) = 0 := by omega
      rw [h2]
      rfl
    rw [hflm]
    simp

theorem similarity_self (s : String) : similarity_score s s = 1 := by
  unfold similarity_score
  by_cases h : s.length + s.length = 0
  · rw [if_pos h]
  · rw [if_neg h]
    have hsd : s.length = s.data.length := rfl
    have hn : 0 < s.data.length := by omega
    have hM : totalMatched s.data s.data = s.data.length := by
      unfold totalMatched
      rw [mbSum]
      rw [flm_self s.data s.data.length hn]
      dsimp only
      rw [if_neg (by omega)]
      simp only [Nat.zero_add]
      rw [mbSum_degenerate, mbSum_degenerate]
      omega
    rw [hM]
    have h2 : (2 * (s.data.length : Int)) = ((s.length + s.length : Nat) : Int) := by
      omega
    rw [← h2]
    rw [Rat.divInt_eq_div]
    apply div_self
    have hne : (2 * (s.data.length : Int)) ≠ 0 := by omega
    exact_mod_cast hne

/-- C9 fails on the code in its symmetry half: the greedy block matching
of `SequenceMatcher` is order-dependent, so `similarity_score` is not
symmetric. -/
theorem c9_counterexample :
    similarity_score "wzxyuv" "uvwxy" ≠ similarity_score "uvwxy" "wzxyuv" := by
  decide

/-- C9 amended: `similarity_score` is reflexive (`score(a, a) = 1`) and
every score lies in `[0, 1]`, but it is not symmetric in general. -/
theorem c9_reflexive_and_bounded :
    (∀ a : String, similarity_score a a = 1) ∧
    (∀ a b : String,
      0 ≤ similarity_score a b ∧ similarity_score a b ≤ 1) := by
  constructor
  · exact similarity_self
  · intro a b
    unfold similarity_score
    by_cases h : a.length + b.length = 0
    · rw [if_pos h]
      norm_num
    · rw [if_neg h]
      have hla : a.length = a.data.length := rfl
      have hlb : b.length = b.data.length := rfl
      have hmle := totalMatched_le a.data b.data
      have hm1 : totalMatched a.data b.data ≤ a.data.length :=
        le_trans hmle (min_le_left _ _)
      have hm2 : totalMatched a.data b.data ≤ b.data.length :=
        le_trans hmle (min_le_right _ _)
      have hT : (0 : ℚ) < ((a.length + b.length : Nat) : ℚ) := by
        exact_mod_cast Nat.pos_of_ne_zero h
      constructor
      · rw [Rat.divInt_eq_div]
        positivity
      · rw [Rat.divInt_eq_div]
        rw [div_le_one (by exact_mod_cast hT)]
        have hq : 2 * totalMatched a.data b.data ≤ a.length + b.length := by
          omega
        exact_mod_cast hq

theorem findGroupsF_flatten_perm :
    ∀ fuel (l : List String), l.length ≤ fuel →
      (findGroupsF fuel l).flatten.Perm l := by
  intro fuel
  induction fuel with
  | zero =>
    intro l h
    have hl : l = [] := List.eq_nil_of_length_eq_zero (by omega)
    subst hl
    simp [findGroupsF]
  | succ f ih =>
    intro l h
    match l with
    | [] => simp [findGroupsF]
    | seed :: rest =>
      rw [findGroupsF]
      rw [List.flatten_cons]
      have hlen :
          (rest.filter fun m => !are_duplicates seed m defaultThreshold).length ≤ f := by
        have := List.length_filter_le
          (fun m => !are_duplicates seed m defaultThreshold) rest
        simp only [List.length_cons] at h
        omega
      have ihp := ih _ hlen
      rw [List.cons_append]
      exact List.Perm.cons seed
        (List.Perm.trans (List.Perm.append_left _ ihp)
          (List.filter_append_perm _ rest))

theorem findGroupsF_groups :
    ∀ fuel (l : List String) g, g ∈ findGroupsF fuel l →
      ∃ s r, g = s :: r ∧ ∀ m ∈ r, are_duplicates s m defaultThreshold = true := by
  intro fuel
  induction fuel with
  | zero =>
    intro l g hg
    match l with
    | [] => simp [findGroupsF] at hg
    | seed :: rest => simp [findGroupsF] at hg
  | succ f ih =>
    intro l g hg
    match l with
    | [] => simp [findGroupsF] at hg
    | seed :: rest =>
      rw [findGroupsF] at hg
      rcases List.mem_cons.mp hg with hh | hh
      · refine ⟨seed, rest.filter fun m => are_duplicates seed m defaultThreshold,
          hh, ?_⟩
        intro m hm
        simpa using (List.mem_filter.mp hm).2
      · exact ih _ g hh

theorem findGroupsF_fuel_irrel :
    ∀ f1 (l : List String) f2, l.length ≤ f1 → l.length ≤ f2 →
      findGroupsF f1 l = findGroupsF f2 l := by
  intro f1
  induction f1 with
  | zero =>
    intro l f2 h1 h2
    have hl : l = [] := List.eq_nil_of_length_eq_zero (by omega)
    subst hl
    cases f2 <;> rfl
  | succ f ih =>
    intro l f2 h1 h2
    match l with
    | [] => cases f2 <;> rfl
    | seed :: rest =>
      match f2 with
      | 0 => simp at h2
      | f2x + 1 =>
        rw [findGroupsF, findGroupsF]
        have hlen :
            (rest.filter fun m => !are_duplicates seed m defaultThreshold).length ≤
              rest.length := List.length_filter_le _ _
        simp only [List.length_cons] at h1 h2
        rw [ih _ f2x (by omega) (by omega)]

theorem flatten_nodup_pairwise :
    ∀ L : List (List String), L.flatten.Nodup →
      L.Pairwise fun g1 g2 => ∀ x ∈ g1, x ∉ g2 := by
  intro L
  induction L with
  | nil => intro h; exact List.Pairwise.nil
  | cons g rest ih =>
    intro h
    rw [List.flatten_cons] at h
    obtain ⟨h1, h2, h3⟩ := List.nodup_append.mp h
    refine List.Pairwise.cons ?_ (ih h2)
    intro g2 hg2 x hx
    intro hx2
    exact h3 hx (List.mem_flatten.mpr ⟨g2, hg2, hx2⟩)

/-- C10: invariants of the Cluster Builder on a duplicate-free input
list — the emitted duplicate groups are pairwise disjoint, every group
has at least two members, every non-seed member matches the group's seed
under the Duplicate Predicate at the default threshold, the emitted
mapping gives every member of a group the group's canonical string, and
each group is seeded by the earliest unclaimed name (the recursion
equation in the last conjunct). -/
theorem c10_cluster_invariants (l : List String) (hnd : l.Nodup) :
    ((duplicate_groups l).Pairwise fun g1 g2 => ∀ x ∈ g1, x ∉ g2) ∧
    (∀ g ∈ duplicate_groups l, 2 ≤ g.length ∧ ∃ s r, g = s :: r ∧ r ≠ [] ∧
      ∀ m ∈ r, are_duplicates s m defaultThreshold = true) ∧
    (∀ g ∈ duplicate_groups l, ∀ n ∈ g,
      (n, choose_canonical_name g) ∈ canonical_mapping l) ∧
    (∀ seed rest, l = seed :: rest →
      findGroups l =
        (seed :: rest.filter fun m => are_duplicates seed m defaultThreshold) ::
          findGroups (rest.filter fun m =>
            !are_duplicates seed m defaultThreshold)) := by
  refine ⟨?_, ?_, ?_, ?_⟩
  · have hperm := findGroupsF_flatten_perm l.length l (le_refl _)
    have hnodupF : (findGroups l).flatten.Nodup := hperm.nodup_iff.mpr hnd
    have hp := flatten_nodup_pairwise (findGroups l) hnodupF
    exact hp.sublist (List.filter_sublist _)
  · intro g hg
    have hmem : g ∈ findGroups l := List.mem_of_mem_filter hg
    have hlen : 1 < g.length := by
      have := (List.mem_filter.mp hg).2
      simpa using this
    obtain ⟨s, r, hsr, hdup⟩ := findGroupsF_groups l.length l g hmem
    refine ⟨by omega, s, r, hsr, ?_, hdup⟩
    subst hsr
    simp only [List.length_cons] at hlen
    intro hr
    subst hr
    simp at hlen
  · intro g hg n hn
    unfold canonical_mapping
    rw [List.mem_flatMap]
    exact ⟨g, hg, List.mem_map.mpr ⟨n, hn, rfl⟩⟩
  · intro seed rest hl
    subst hl
    unfold findGroups
    rw [show (seed :: rest).length = rest.length + 1 from rfl]
    rw [findGroupsF]
    rw [findGroupsF_fuel_irrel rest.length
      (rest.filter fun m => !are_duplicates seed m defaultThreshold)
      (rest.filter fun m => !are_duplicates seed m defaultThreshold).length
      (List.length_filter_le _ _) (le_refl _)]

/-- Witness for C10 at a concrete duplicate-free batch. -/
theorem c10_cluster_invariants_witness :
    (["Currywurst a", "Currywurst b"] : List String).Nodup ∧
    (∀ g ∈ duplicate_groups ["Currywurst a", "Currywurst b"], 2 ≤ g.length ∧
      ∃ s r, g = s :: r ∧ r ≠ [] ∧
        ∀ m ∈ r, are_duplicates s m defaultThreshold = true) :=
  ⟨by decide, (c10_cluster_invariants ["Currywurst a", "Currywurst b"]
    (by decide)).2.1⟩

end Dedup
